/-
Verification of the "Now Playing" metadata resolution subsystem of the
miniradio client: a shallow embedding of the metadata package (frame parser,
direct ICY strategy, sibling discovery, status-JSON strategy, dispatcher) and
of the player's title stabilizer, together with theorems about the embedded
definitions.

Conventions of the embedding:
* Go strings are modelled as Lean `String` (a `List Char` wrapper); the
  sources under scrutiny only index strings bytewise on ASCII data, where
  byte positions and character positions coincide.
* Byte streams (HTTP response bodies carrying ICY frames) are `List Nat`,
  one entry per byte.
* The network is a function `Env : String → Option HTTPResp`; `none` models
  a transport-level error for that URL.
* Goroutines and contexts are flattened: each strategy is a function from its
  inputs (and the network) to the sequence of callback invocations it
  performs; context cancellation of the status poll loop is modelled by a
  tick budget.
* `html.UnescapeString` from the Go standard library is modelled on the
  entity subset exercised by this repository (named `&amp; &lt; &gt; &quot;
  &apos;` and numeric `&#39; &#039;`); all other text passes through
  unchanged, as in Go.
-/
import Mathlib

deriving instance DecidableEq for Except

namespace MiniRadio

/-! ### String helpers (model of the Go standard library subset used) -/

/-- Characters trimmed by Go's `strings.TrimSpace` (the ASCII white space
characters plus NEL and NBSP, the Latin-1 part of `unicode.IsSpace`). -/
def isGoSpace (c : Char) : Bool :=
  c = ' ' || c = '\t' || c = '\n' || c = Char.ofNat 11 || c = Char.ofNat 12 ||
    c = '\r' || c = Char.ofNat 133 || c = Char.ofNat 160

/-- `strings.TrimSpace` on a character list. -/
def trimSpaceL (l : List Char) : List Char :=
  ((l.dropWhile isGoSpace).reverse.dropWhile isGoSpace).reverse

/-- `strings.TrimSpace` on strings. -/
def trimSpaceS (s : String) : String := ⟨trimSpaceL s.data⟩

/-- Entity table for the model of `html.UnescapeString`. -/
def entityTable : List (List Char × Char) :=
  [("amp;".data, '&'), ("lt;".data, '<'), ("gt;".data, '>'),
   ("quot;".data, '"'), ("apos;".data, '\''), ("#39;".data, '\''),
   ("#039;".data, '\'')]

/-- Bytewise prefix test (Go `strings.HasPrefix`). -/
def isPrefixCL : List Char → List Char → Bool
  | [], _ => true
  | _ :: _, [] => false
  | a :: as, b :: bs => a = b && isPrefixCL as bs

/-- After an `&`, find the entity (if any) that follows, returning its
replacement character and the input remaining after the entity. -/
def entitySubst (rest : List Char) : Option (Char × List Char) :=
  match entityTable.find? (fun e => isPrefixCL e.1 rest) with
  | some e => some (e.2, rest.drop e.1.length)
  | none => none

/-- Worker for `unescapeHTMLL`; the first argument is structural fuel (every
step consumes at least one input character, so the input length suffices, and
the fuel-exhaustion branch — which would need `fuel < l.length` — is
unreachable from `unescapeHTMLL`). -/
def unescapeHTMLAux : Nat → List Char → List Char
  | 0, l => l
  | _ + 1, [] => []
  | fuel + 1, c :: rest =>
    if c = '&' then
      match entitySubst rest with
      | some dr => dr.1 :: unescapeHTMLAux fuel dr.2
      | none => '&' :: unescapeHTMLAux fuel rest
    else c :: unescapeHTMLAux fuel rest

/-- Model of Go `html.UnescapeString`, restricted to the entities relevant to
this repository (see `entityTable`); unrecognised ampersand sequences pass
through unchanged, exactly as in Go. -/
def unescapeHTMLL (l : List Char) : List Char := unescapeHTMLAux l.length l

/-- `html.UnescapeString` on strings. -/
def unescapeString (s : String) : String := ⟨unescapeHTMLL s.data⟩

/-- `strings.Index`: index of the first occurrence of `pat` in the list,
`none` when absent. -/
def findSubstr (pat : List Char) : List Char → Option Nat
  | [] => if pat = [] then some 0 else none
  | s@(_ :: rest) =>
    if isPrefixCL pat s then some 0 else (findSubstr pat rest).map (· + 1)

/-- `strings.LastIndexByte`: index of the last occurrence of `q`. -/
def lastIdxOf (q : Char) : List Char → Option Nat
  | [] => none
  | c :: rest =>
    match lastIdxOf q rest with
    | some k => some (k + 1)
    | none => if c = q then some 0 else none

/-- `strings.Contains(s, "=")` specialised to one character. -/
def containsChar (c : Char) (l : List Char) : Bool := l.any (· = c)

/-! ### Frame parser: `extractStreamTitle` (internal/metadata/helpers.go) -/

/-- One step of the quote-terminator scan of `extractStreamTitle`: position
`i` of `m` terminates the quoted value when it holds the quote character and,
after skipping spaces and tabs, either the input ends or a `;` follows that is
in turn followed by text containing `=` (another `key=value` pair). -/
def isQuoteTerm (q : Char) (m : List Char) (i : Nat) : Bool :=
  match m.drop i with
  | [] => false
  | c :: rest =>
    c = q &&
      (match rest.dropWhile (fun d => d = ' ' || d = '\t') with
       | [] => true
       | d :: r3 => d = ';' && containsChar '=' r3)

/-- The `for i := 0; i < len(meta); i++` scan of `extractStreamTitle`: the
first index terminating the quoted value. -/
def quoteEnd (q : Char) (m : List Char) : Option Nat :=
  (List.range m.length).find? (fun i => isQuoteTerm q m i)

/-- Core of `extractStreamTitle` on character lists, mirroring
internal/metadata/helpers.go lines 64-120. -/
def extractStreamTitleCore (meta : List Char) : List Char :=
  if meta = [] then [] else
  match findSubstr ("StreamTitle=".data) meta with
  | none => []
  | some idx =>
    let m1 := trimSpaceL (meta.drop (idx + 12))
    match m1 with
    | [] => []
    | c :: rest =>
      if c = '\'' || c = '"' then
        let q := c
        let m := rest
        let endIdx :=
          match quoteEnd q m with
          | some e => some e
          | none => lastIdxOf q m
        let m2 :=
          match endIdx with
          | some e => m.take e
          | none => m
        unescapeHTMLL (trimSpaceL m2)
      else
        let m2 :=
          match findSubstr [';'] m1 with
          | some e => m1.take e
          | none => m1
        unescapeHTMLL (trimSpaceL m2)

/-- `extractStreamTitle` parses ICY metadata blocks, extracting `StreamTitle`. -/
def extractStreamTitle (s : String) : String := ⟨extractStreamTitleCore s.data⟩

/-- `fixMojibake`: Go trims, HTML-unescapes and (in both branches of its
ASCII test) returns the resulting string unchanged, so the net effect is
trim-then-unescape. -/
def fixMojibake (s : String) : String := unescapeString (trimSpaceS s)

/-! ### Frame parser: `firstMetaBlock` (internal/metadata/helpers.go) -/

/-- The two error values `firstMetaBlock` can surface: `io.EOF` (also the
"no metadata present" signal) and `io.ErrUnexpectedEOF` from a short read. -/
inductive ReadErr where
  | eof
  | unexpectedEOF
  deriving DecidableEq

/-- Worker for `skipChunks`.  The first argument is structural fuel; each
loop iteration consumes at least one byte of `left`, so fuel `left` always
suffices and the fuel-exhaustion branch (which requires `fuel < left`) is
unreachable from `skipChunks`. -/
def skipChunksAux : Nat → List Nat → Nat → Except ReadErr (List Nat)
  | _, body, 0 => .ok body
  | 0, body, _ + 1 => .ok body
  | fuel + 1, body, left + 1 =>
    let chunk := min (left + 1) 4096
    if body.length ≥ chunk then
      skipChunksAux fuel (body.drop chunk) (left + 1 - chunk)
    else if body.length = 0 then .error .eof
    else .error .unexpectedEOF

/-- The audio-skipping loop of `firstMetaBlock`: repeated `io.ReadFull` of
chunks of at most 4096 bytes until `left` bytes are consumed.  `io.ReadFull`
reports `io.EOF` when no byte was available and `io.ErrUnexpectedEOF` on a
short read. -/
def skipChunks (body : List Nat) (left : Nat) : Except ReadErr (List Nat) :=
  skipChunksAux left body left

/-- Latin-1 style decoding of metadata bytes (`string(meta)` in Go reads the
raw bytes; on the ASCII data in scope byte values and code points agree). -/
def bytesToString (bs : List Nat) : String := ⟨bs.map Char.ofNat⟩

/-- `firstMetaBlock` skips the audio payload and decodes the next metadata
frame, returning the Go `(string, error)` pair (internal/metadata/helpers.go
lines 123-161).  The `r == nil` guard of the source is outside the model:
the reader is always the byte list `body`. -/
def firstMetaBlock (body : List Nat) (metaInt : Int) : String × Option ReadErr :=
  if metaInt ≤ 0 then ("", some .eof) else
  match skipChunks body metaInt.toNat with
  | .error e => ("", some e)
  | .ok rest =>
    match rest with
    | [] => ("", some .eof)
    | lb :: rest2 =>
      if lb = 0 then ("", some .eof)
      else
        let metaLen := lb * 16
        if rest2.length < metaLen then
          ("", some (if rest2.length = 0 then .eof else .unexpectedEOF))
        else
          let text := extractStreamTitle (bytesToString (rest2.take metaLen))
          if text = "" then ("", some .eof) else (text, none)

/-! ### Data model (internal/metadata/provider.go) -/

/-- `Info` describes metadata updates reported by strategies. -/
structure Info where
  Title : String
  Description : String
  Station : String
  deriving DecidableEq

/-- `StrategyHint` allows callers to provide or receive the chosen metadata
strategy (`Type` is spelled `type` because `Type` is reserved in Lean). -/
structure StrategyHint where
  type : String
  URL : String
  deriving DecidableEq

/-- `MetadataTypeICY`. -/
def MetadataTypeICY : String := "ICY"

/-- `MetadataTypeJSON`. -/
def MetadataTypeJSON : String := "JSON"

/-- A decoded JSON document (the image of `encoding/json`'s `any`). -/
inductive Json where
  | null
  | bool (b : Bool)
  | num (n : Int)
  | str (s : String)
  | arr (items : List Json)
  | obj (fields : List (String × Json))

/-! ### URL model and the network environment -/

/-- A parsed URL (`net/url.URL` restricted to the fields the metadata package
reads); the strategies' entry points take already-parsed URLs, so Go's
`url.Parse` error path (which never fires on the well-formed URLs in scope)
has no counterpart here. -/
structure Url where
  scheme : String
  host : String
  path : String
  deriving DecidableEq

/-- `url.URL.String` for scheme/host/path-only URLs whose path starts with
`/` and needs no percent-escaping. -/
def urlString (u : Url) : String := u.scheme ++ "://" ++ u.host ++ u.path

/-- An HTTP response.  `body` is the raw byte stream (used by the ICY
strategies); `bodyJson` is the same body viewed through a JSON decoder
(used by the status strategy), `none` meaning malformed JSON. -/
structure HTTPResp where
  status : Nat
  headers : List (String × String)
  body : List Nat
  bodyJson : Option Json

/-- The network: a map from request URL to response; `none` models a
transport error (connection refused, timeout, TLS failure). -/
def Env : Type := String → Option HTTPResp

/-- ASCII lowering (the inputs in scope are ASCII, where Go's
`strings.ToLower` agrees). -/
def lowerStr (s : String) : String := ⟨s.data.map Char.toLower⟩

/-- ASCII upper-casing (`strings.ToUpper` on the ASCII hint types). -/
def upperStr (s : String) : String := ⟨s.data.map Char.toUpper⟩

/-- `http.Header.Get`: case-insensitive lookup of the first matching header,
empty string when absent. -/
def headerGet (hs : List (String × String)) (k : String) : String :=
  match hs.find? (fun kv => lowerStr kv.1 = lowerStr k) with
  | some kv => kv.2
  | none => ""

/-- `strconv.Atoi`: optional sign followed by decimal digits.  (Go also
rejects values overflowing a machine int; the headers in scope are far below
that bound.) -/
def atoi (s : String) : Option Int :=
  match s.data with
  | [] => none
  | '+' :: rest => (digitsVal rest).map (fun n => (n : Int))
  | '-' :: rest => (digitsVal rest).map (fun n => -(n : Int))
  | l => (digitsVal l).map (fun n => (n : Int))
where
  /-- Decimal value of a non-empty all-digit list. -/
  digitsVal (l : List Char) : Option Nat :=
    if l ≠ [] ∧ l.all (·.isDigit) then
      some (l.foldl (fun acc c => acc * 10 + (c.toNat - 48)) 0)
    else none

/-! ### Sibling discovery (internal/metadata/direct_icy.go, sibling part) -/

/-- `strings.Trim(path, "/")`: remove leading and trailing `/` characters. -/
def trimSlashes (l : List Char) : List Char :=
  ((l.dropWhile (· = '/')).reverse.dropWhile (· = '/')).reverse

/-- `strings.LastIndexAny(path, "-_.")`: index of the last separator. -/
def lastSepIdx : List Char → Option Nat
  | [] => none
  | c :: rest =>
    match lastSepIdx rest with
    | some k => some (k + 1)
    | none => if c = '-' || c = '_' || c = '.' then some 0 else none

/-- `detectSiblingSuffix` extracts the trailing token (bitrate/codec) to
swap: the text after the last `-`, `_` or `.` when that separator is not the
final character, otherwise the whole path trimmed of `/` characters. -/
def detectSiblingSuffix (path : String) : String :=
  if path = "" then "" else
  match lastSepIdx path.data with
  | some i =>
    if i + 1 < path.data.length then ⟨path.data.drop (i + 1)⟩
    else ⟨trimSlashes path.data⟩
  | none => ⟨trimSlashes path.data⟩

/-- `strings.Replace(s, old, new, 1)`: replace the first occurrence of a
non-empty pattern. -/
def replaceFirst (s pat repl : List Char) : List Char :=
  match s with
  | [] => []
  | c :: rest =>
    if isPrefixCL pat s then
      if pat = [] then s else repl ++ s.drop pat.length
    else c :: replaceFirst rest pat repl

/-- The `priorities` list of `buildSiblingCandidates`. -/
def siblingPriorities : List String :=
  ["320", "320k", "256", "256k", "192", "192k", "128", "128k",
   "stream", "live", "aac", "aacp", "mp3"]

/-- `buildSiblingCandidates` generates prioritized sibling mount paths by
swapping the detected trailing token for each priority label. -/
def buildSiblingCandidates (originalPath : String) : List String :=
  if originalPath = "" then [] else
  let orig : List Char :=
    if isPrefixCL ['/'] originalPath.data then originalPath.data
    else '/' :: originalPath.data
  let suffix := detectSiblingSuffix ⟨orig⟩
  if suffix = "" then []
  else siblingPriorities.map (fun label => ⟨replaceFirst orig suffix.data label.data⟩)

/-- `probeCandidate` issues one short request and accepts the candidate when
the response advertises a positive `icy-metaint` and its first metadata block
yields a non-blank title. -/
def probeCandidate (env : Env) (candidate : String) : Option (String × String) :=
  match env candidate with
  | none => none
  | some resp =>
    let metaIntStr := headerGet resp.headers "icy-metaint"
    if metaIntStr = "" then none else
    match atoi metaIntStr with
    | none => none
    | some metaInt =>
      if metaInt ≤ 0 then none else
      let (title, err) := firstMetaBlock resp.body metaInt
      if err.isSome then none
      else if trimSpaceS title = "" then none
      else
        let station := trimSpaceS (headerGet resp.headers "icy-name")
        some (fixMojibake title, fixMojibake station)

/-- The probing loop of `scanCandidates`: try candidate suffixes in order,
first success wins.  The second component is the trace of probed candidate
URLs (the network requests issued); the 80ms inter-probe delay and the
`ctx.Done()` check have no observable effect in this time-free model. -/
def probeSeq (env : Env) (u : Url) : List String → Except String (String × Info) × List String
  | [] => (.error "no sibling metadata", [])
  | suffix :: rest =>
    let candURL := urlString ⟨u.scheme, u.host, suffix⟩
    match probeCandidate env candURL with
    | some ts => (.ok (candURL, ⟨ts.1, "", ts.2⟩), [candURL])
    | none =>
      let (r, tr) := probeSeq env u rest
      (r, candURL :: tr)

/-- `scanCandidates` builds and probes candidate mount points until one
responds with ICY metadata. -/
def scanCandidates (env : Env) (u : Url) : Except String (String × Info) × List String :=
  let candidates := buildSiblingCandidates u.path
  if candidates = [] then (.error "no candidates", [])
  else probeSeq env u candidates

/-! ### Sibling cache (internal/metadata/helpers.go and direct_icy.go) -/

/-- `path.Base`: strip trailing slashes, keep the part after the last `/`;
`"."` for the empty path and `"/"` when only slashes remain. -/
def pathBase (p : List Char) : List Char :=
  if p = [] then ['.'] else
  let p1 := (p.reverse.dropWhile (· = '/')).reverse
  let p2 :=
    match lastIdxOf '/' p1 with
    | some i => p1.drop (i + 1)
    | none => p1
  if p2 = [] then ['/'] else p2

/-- `path.Ext`: the suffix of the final path element starting at its last
dot, empty when the final element has no dot. -/
def extOf (p : List Char) : List Char :=
  let revSeg := p.reverse.takeWhile (· ≠ '/')
  match findSubstr ['.'] revSeg with
  | some k => (revSeg.take (k + 1)).reverse
  | none => []

/-- `baseNameFromURL` returns the lowercase mount name without numeric
suffixes: base name, extension stripped, cut at the first `-` or `_`. -/
def baseNameFromURL (u : Url) : String :=
  let b := pathBase u.path.data
  let trimmed := b.take (b.length - (extOf b).length)
  lowerStr ⟨trimmed.takeWhile (fun c => !(c = '-' || c = '_'))⟩

/-- `stationCacheKey` creates a host+basename key for the sibling cache. -/
def stationCacheKey (u : Url) : String :=
  lowerStr u.host ++ "|" ++ baseNameFromURL u

/-- The process-wide `siblingCache` (`sync.Map`), threaded explicitly. -/
abbrev Cache : Type := List (String × String)

/-- `sync.Map.Load`. -/
def cacheLookup (c : Cache) (k : String) : Option String :=
  (c.find? (fun kv => kv.1 = k)).map (·.2)

/-- `sync.Map.Store` (lookup sees the newest binding). -/
def cacheStore (c : Cache) (k v : String) : Cache := (k, v) :: c

/-- `siblingStrategy.Discover`: consult the cache, otherwise scan candidates
and memoize a success.  Returns the Go result, the updated cache and the
trace of network probes issued.  (`stationCacheKey` always contains the `|`
separator here, so the source's `key != ""` guards are kept but vacuous.) -/
def discover (env : Env) (cache : Cache) (u : Url) :
    Except String (String × Info) × Cache × List String :=
  let key := stationCacheKey u
  let hit : Option String :=
    if key ≠ "" then
      match cacheLookup cache key with
      | some target => if target ≠ "" then some target else none
      | none => none
    else none
  match hit with
  | some target => (.ok (target, ⟨"", "", ""⟩), cache, [])
  | none =>
    let (r, probes) := scanCandidates env u
    match r with
    | .ok ti => (.ok ti, (if key ≠ "" then cacheStore cache key ti.1 else cache), probes)
    | .error e => (.error e, cache, probes)

/-! ### Direct ICY strategy (internal/metadata/direct_icy.go, direct part) -/

/-- The ways `directStrategy.Watch` can return.  The Go function only ever
returns a non-nil error; `noICY` is the sentinel `errNoICY` (returned
unwrapped, so `errors.Is(err, errNoICY)` holds exactly for it), `streamEnd`
is any read/cancellation error ending the metadata loop after a successful
handshake, and `fuelOut` truncates an unbounded redirect chain. -/
inductive DirectRes where
  | httpErr
  | noLocation
  | fuelOut
  | noICY
  | streamEnd
  deriving DecidableEq

/-- Worker for the metadata read loop of `directStrategy.Watch`; the first
argument is structural fuel (each iteration consumes at least one byte of the
finite body, so `body.length + 1` always suffices). -/
def icyLoopAux : Nat → Nat → String → List Nat → List Info
  | 0, _, _, _ => []
  | fuel + 1, metaInt, station, body =>
    if body.length < metaInt then []
    else
      match body.drop metaInt with
      | [] => []
      | lb :: rest2 =>
        let metaLen := lb * 16
        if metaLen = 0 then icyLoopAux fuel metaInt station rest2
        else if rest2.length < metaLen then []
        else
          let text := extractStreamTitle (bytesToString (rest2.take metaLen))
          let tail := icyLoopAux fuel metaInt station (rest2.drop metaLen)
          if text = "" then tail
          else ⟨fixMojibake text, "", unescapeString station⟩ :: tail

/-- The `for` loop of `directStrategy.Watch`: skip `metaInt` audio bytes,
read a length byte, skip empty blocks, emit every non-empty extracted title;
it ends when the finite body runs out (a read error in Go). -/
def icyLoop (metaInt : Nat) (station : String) (body : List Nat) : List Info :=
  icyLoopAux (body.length + 1) metaInt station body

/-- `directStrategy.Watch`: GET with `Icy-MetaData: 1`, manual recursive
redirect following (bounded here by fuel, unbounded in the source), the
`icy-metaint` handshake, one station-only update, then the metadata loop.
Result: (return value, whether `onReady` was invoked, `onUpdate` calls). -/
def directWatch (env : Env) : Nat → String → DirectRes × Bool × List Info
  | 0, _ => (.fuelOut, false, [])
  | fuel + 1, url =>
    match env url with
    | none => (.httpErr, false, [])
    | some resp =>
      if 300 ≤ resp.status ∧ resp.status < 400 then
        let loc := headerGet resp.headers "Location"
        if loc = "" then (.noLocation, false, [])
        else directWatch env fuel loc
      else
        let metaIntStr := headerGet resp.headers "icy-metaint"
        if metaIntStr = "" then (.noICY, false, [])
        else
          match atoi metaIntStr with
          | none => (.noICY, false, [])
          | some metaInt =>
            if metaInt ≤ 0 then (.noICY, false, [])
            else
              let station := trimSpaceS (headerGet resp.headers "icy-name")
              let pre : List Info :=
                if station ≠ "" then [⟨"", "", unescapeString station⟩] else []
              (.streamEnd, true, pre ++ icyLoop metaInt.toNat station resp.body)

/-- A response passes the ICY handshake when its `icy-metaint` header parses
to a positive integer. -/
def hasPositiveMetaInt (resp : HTTPResp) : Bool :=
  match atoi (headerGet resp.headers "icy-metaint") with
  | some n => decide (0 < n)
  | none => false

/-! ### Status-JSON strategy (internal/metadata/status_json.go) -/

/-- Split a path at `/` characters, keeping empty components. -/
def splitSlash : List Char → List (List Char)
  | [] => [[]]
  | c :: rest =>
    let r := splitSlash rest
    if c = '/' then [] :: r
    else
      match r with
      | [] => [[c]]
      | x :: xs => (c :: x) :: xs

/-- Join path components with `/`. -/
def joinSlash : List (List Char) → List Char
  | [] => []
  | [x] => x
  | x :: xs => x ++ '/' :: joinSlash xs

/-- Go `path.Clean`. -/
def pathClean (p : String) : String :=
  if p = "" then "." else
  let rooted := isPrefixCL ['/'] p.data
  let out := (splitSlash p.data).foldl
    (fun acc c =>
      if c = [] ∨ c = ['.'] then acc
      else if c = ['.', '.'] then
        match acc with
        | [] => if rooted then [] else [['.', '.']]
        | x :: rest => if x = ['.', '.'] then c :: x :: rest else rest
      else c :: acc)
    ([] : List (List Char))
  let body := joinSlash out.reverse
  if rooted then ⟨'/' :: body⟩
  else if body = [] then "." else ⟨body⟩

/-- Go `path.Dir`: everything through the final slash, cleaned. -/
def pathDir (p : String) : String :=
  match lastIdxOf '/' p.data with
  | some i => pathClean ⟨p.data.take (i + 1)⟩
  | none => pathClean ""

/-- Go `path.Join`: join from the first non-empty element, then clean. -/
def pathJoin (elems : List String) : String :=
  match elems.dropWhile (· = "") with
  | [] => ""
  | l => pathClean ⟨joinSlash (l.map String.data)⟩

/-- `buildStatusURL` converts a stream URL (`/live/rock`) into its sibling
JSON endpoint (`/live/status-json.xsl`). -/
def buildStatusURL (u : Url) : String :=
  urlString { u with path := pathJoin ["/", pathDir u.path, "status-json.xsl"] }

/-- `iceSource`: one mount entry of the Icecast status document. -/
structure IceSource where
  title : String
  server : String
  icyName : String
  deriving DecidableEq

/-- `encoding/json` unmarshalling of a string-typed struct field: absent or
null yields the zero value, a string yields itself, any other type is an
unmarshalling error.  (Objects in scope have distinct keys, so first-match
lookup agrees with Go's last-wins rule.) -/
def getStrField (fs : List (String × Json)) (k : String) : Option String :=
  match fs.find? (fun f => f.1 = k) with
  | none => some ""
  | some (_, .str s) => some s
  | some (_, .null) => some ""
  | some _ => none

/-- Unmarshal one `source` entry into `iceSource`; `none` models a
`json.Unmarshal` error (skipped by `extractSources`). -/
def unmarshalSource : Json → Option IceSource
  | .null => some ⟨"", "", ""⟩
  | .obj fs =>
    match getStrField fs "title", getStrField fs "server_name", getStrField fs "icy-name" with
    | some t, some sv, some ic => some ⟨t, sv, ic⟩
    | _, _, _ => none
  | _ => none

/-- Decoding the response into the `iceStats` struct: `none` is a decode
error; `some src` carries the raw `source` field when present. -/
def decodeIceStats : Json → Option (Option Json)
  | .null => some none
  | .obj fs =>
    match fs.find? (fun f => f.1 = "icestats") with
    | none => some none
    | some (_, .null) => some none
    | some (_, .obj fs2) =>
      some ((fs2.find? (fun f => f.1 = "source")).map (·.2))
    | some _ => none
  | _ => none

/-- `extractSources` normalizes the `source` field, which may be a single
object or an array. -/
def extractSources : Option Json → List IceSource
  | some (.obj fs) =>
    match unmarshalSource (.obj fs) with
    | some s => [s]
    | none => []
  | some (.arr items) => items.filterMap unmarshalSource
  | _ => []

/-- The source-selection loop of `pollOnce`: the first source with a
non-blank title wins; station prefers `server_name`, falling back to
`icy-name`. -/
def firstTitled : List IceSource → Option (String × String)
  | [] => none
  | s :: rest =>
    if trimSpaceS s.title ≠ "" then
      some (s.title, if trimSpaceS s.server = "" then s.icyName else s.server)
    else firstTitled rest

/-- `statusJSONStrategy.pollOnce`: one GET of the status endpoint; `none` on
transport error, non-2xx status, malformed JSON or no usable source entry. -/
def pollOnce (env : Env) (apiURL : String) : Option (String × String) :=
  match env apiURL with
  | none => none
  | some resp =>
    if resp.status < 200 ∨ 300 ≤ resp.status then none
    else
      match resp.bodyJson with
      | none => none
      | some j =>
        match decodeIceStats j with
        | none => none
        | some src => firstTitled (extractSources src)

/-- The poll interval of `statusJSONStrategy.Watch` in seconds
(`time.NewTicker(10 * time.Second)`). -/
def statusPollSeconds : Nat := 10

/-- How `statusJSONStrategy.Watch` can end: first-poll failure (the returned
error) or context cancellation of the ticker loop. -/
inductive StatusRes where
  | noStatus
  | canceled
  deriving DecidableEq

/-- The ticker loop of `statusJSONStrategy.Watch`: `envs k` is the network
state at the `k`-th poll, the budget counts ticks until the context is
cancelled; a failed poll emits nothing but the loop continues. -/
def statusLoop (envs : Nat → Env) (apiURL : String) : Nat → Nat → List Info
  | 0, _ => []
  | budget + 1, k =>
    match pollOnce (envs k) apiURL with
    | some ts => ⟨ts.1, "", ts.2⟩ :: statusLoop envs apiURL budget (k + 1)
    | none => statusLoop envs apiURL budget (k + 1)

/-- `statusJSONStrategy.Watch`: derive the API URL when none is supplied,
poll once (failing fast), report readiness, emit the first `Info`, then tick
every 10 seconds until cancellation.  Result: (how the call ended, the
`onReady` invocations, the `onUpdate` invocations). -/
def statusWatch (envs : Nat → Env) (ticks : Nat) (streamURL : Url) (apiURL : String) :
    StatusRes × List String × List Info :=
  let api := if trimSpaceS apiURL = "" then buildStatusURL streamURL else apiURL
  match pollOnce (envs 0) api with
  | none => (.noStatus, [], [])
  | some ts => (.canceled, [api], ⟨ts.1, "", ts.2⟩ :: statusLoop envs api ticks 1)

/-! ### Dispatcher (internal/metadata/provider.go) -/

/-- The strategies a watch session may attempt, in chain order. -/
inductive Attempt where
  | direct
  | sibling
  | status
  deriving DecidableEq

/-- The observable outcome of one dispatcher watch session: which strategies
ran, the `onStrategy` and `onUpdate` invocations, and the sibling cache
afterwards. -/
structure WatchTrace where
  attempts : List Attempt
  strategies : List StrategyHint
  updates : List Info
  cache : Cache

/-- `dispatcher.autoWatch`: Direct on the stream URL; only on the `errNoICY`
sentinel try Sibling discovery (reporting the sibling URL and watching it
with Direct, its `onReady` discarded); if Sibling also fails, fall back to
Status.  The direct strategy's `onReady` reports the ICY strategy via
`onStrategy`. -/
def autoWatch (env : Env) (fuel ticks : Nat) (cache : Cache) (u : Url) : WatchTrace :=
  let d := directWatch env fuel (urlString u)
  let strat1 : List StrategyHint :=
    if d.2.1 then [⟨MetadataTypeICY, urlString u⟩] else []
  if d.1 ≠ .noICY then ⟨[.direct], strat1, d.2.2, cache⟩
  else
    match discover env cache u with
    | (.ok ti, cache2, _) =>
      let inf := ti.2
      let upds : List Info :=
        if inf.Title ≠ "" ∨ inf.Station ≠ "" then [inf] else []
      let d2 := directWatch env fuel ti.1
      ⟨[.direct, .sibling], strat1 ++ [⟨MetadataTypeICY, ti.1⟩],
        d.2.2 ++ upds ++ d2.2.2, cache2⟩
    | (.error _, cache2, _) =>
      let st := statusWatch (fun _ => env) ticks u ""
      ⟨[.direct, .sibling, .status],
        strat1 ++ st.2.1.map (fun api => ⟨MetadataTypeJSON, api⟩),
        d.2.2 ++ st.2.2, cache2⟩

/-- `dispatcher.Watch` plus its `runStatus`/`runDirect` helpers: a `JSON`
hint runs Status against the hinted URL, an `ICY` hint runs Direct against
the hinted (or original) URL, anything else runs the auto fallback chain. -/
def dispatchWatch (env : Env) (fuel ticks : Nat) (cache : Cache) (u : Url)
    (hint : StrategyHint) : WatchTrace :=
  if urlString u = "" then ⟨[], [], [], cache⟩ else
  let hType := upperStr (trimSpaceS hint.type)
  if hType = MetadataTypeJSON then
    let st := statusWatch (fun _ => env) ticks u hint.URL
    ⟨[.status], st.2.1.map (fun api => ⟨MetadataTypeJSON, api⟩), st.2.2, cache⟩
  else if hType = MetadataTypeICY then
    let target := if hint.URL = "" then urlString u else hint.URL
    let d := directWatch env fuel target
    ⟨[.direct], if d.2.1 then [⟨MetadataTypeICY, target⟩] else [], d.2.2, cache⟩
  else autoWatch env fuel ticks cache u

/-! ### Title stabilizer (internal/player/logflags.go) -/

/-- `stableWindow` in seconds (`6 * time.Second`). -/
def stableWindow : Nat := 6

/-- `nearEndThreshold` in seconds (`10 * time.Second`). -/
def nearEndThreshold : Nat := 10

/-- `Player.remainingDur`: the build in scope cannot read the media length
and always reports `(0, false)`, i.e. no near-end gating. -/
def remainingDur : Option Nat := none

/-- The title-stabilization fields of `Player`. -/
structure StabState where
  currentTitle : String
  pendingTitle : String
  firstSeenPending : Nat
  deriving DecidableEq

/-- The normalization `handleICYTitle` applies to a raw ICY title. -/
def normTitle (raw : String) : String := trimSpaceS (unescapeString raw)

/-- `Player.handleICYTitle` at time `now` (seconds): returns the new state,
the `onNow` emission (if any), and the delayed-apply goroutine armed by this
call (scheduled value and fire time), if any. -/
def handleICYTitle (s : StabState) (raw : String) (now : Nat) :
    StabState × Option String × Option (String × Nat) :=
  let title := normTitle raw
  if title = "" then (s, none, none)
  else if title = s.currentTitle then (s, none, none)
  else if title ≠ s.pendingTitle then
    ({ s with pendingTitle := title, firstSeenPending := now }, none,
      some (title, now + stableWindow))
  else if now - s.firstSeenPending < stableWindow then (s, none, none)
  else
    match remainingDur with
    | some rem =>
      if rem > nearEndThreshold then (s, none, none)
      else ({ s with currentTitle := s.pendingTitle }, some s.pendingTitle, none)
    | none => ({ s with currentTitle := s.pendingTitle }, some s.pendingTitle, none)

/-- The body of the delayed-apply goroutine armed by `handleICYTitle` when it
fires: promote `captured` exactly when it is still the live pending value and
differs from the current display (no explicit cancellation exists). -/
def fireCheck (s : StabState) (captured : String) : StabState × Option String :=
  if s.pendingTitle ≠ captured ∨ s.currentTitle = captured then (s, none)
  else
    match remainingDur with
    | some rem =>
      if rem > nearEndThreshold then (s, none)
      else ({ s with currentTitle := captured }, some captured)
    | none => ({ s with currentTitle := captured }, some captured)

/-- Serialized events acting on the stabilizer state: an incoming ICY title
at a given time, or the firing of a previously armed delayed apply. -/
inductive StabEvent where
  | icy (raw : String) (now : Nat)
  | fire (captured : String)

/-- One stabilizer step (the `mu`-serialized critical sections). -/
def stabStep (s : StabState) : StabEvent → StabState × Option String
  | .icy raw now =>
    let r := handleICYTitle s raw now
    (r.1, r.2.1)
  | .fire captured => fireCheck s captured

/-- Run a sequence of stabilizer events, collecting the `onNow` emissions. -/
def stabRun (s : StabState) : List StabEvent → StabState × List String
  | [] => (s, [])
  | e :: rest =>
    let r := stabStep s e
    let r2 := stabRun r.1 rest
    (r2.1, r.2.toList ++ r2.2)

/-! ### General lemmas about the embedding -/

theorem unescapeHTMLAux_ne_nil :
    ∀ (fuel : Nat) {l : List Char}, l ≠ [] → unescapeHTMLAux fuel l ≠ [] := by
  intro fuel l h
  match fuel, l with
  | 0, l => simpa [unescapeHTMLAux] using h
  | _ + 1, [] => exact absurd rfl h
  | f + 1, c :: rest =>
    simp only [unescapeHTMLAux]
    split
    · match hs : entitySubst rest with
      | some dr => simp [hs]
      | none => simp [hs]
    · simp

theorem unescapeHTMLL_ne_nil {l : List Char} (h : l ≠ []) : unescapeHTMLL l ≠ [] :=
  unescapeHTMLAux_ne_nil l.length h

theorem string_ne_empty_iff (s : String) : s ≠ "" ↔ s.data ≠ [] := by
  cases s with
  | mk data => simp [String.ext_iff]

theorem unescapeString_ne_empty {s : String} (h : s ≠ "") : unescapeString s ≠ "" := by
  rw [string_ne_empty_iff] at h ⊢
  exact unescapeHTMLL_ne_nil h

theorem skipChunksAux_exact :
    ∀ (fuel left : Nat) (body : List Nat), left ≤ fuel → left ≤ body.length →
      skipChunksAux fuel body left = .ok (body.drop left) := by
  intro fuel
  induction fuel with
  | zero =>
    intro left body h1 h2
    have : left = 0 := by omega
    subst this
    simp [skipChunksAux]
  | succ n ih =>
    intro left body h1 h2
    cases left with
    | zero => simp [skipChunksAux]
    | succ l =>
      obtain ⟨c, hc⟩ : ∃ c, min (l + 1) 4096 = c := ⟨_, rfl⟩
      have hcpos : 0 < c := hc ▸ lt_min (Nat.succ_pos l) (by norm_num)
      have hcle : c ≤ l + 1 := hc ▸ min_le_left _ _
      have hch : c ≤ body.length := le_trans hcle h2
      simp only [skipChunksAux, hc]
      rw [if_pos hch,
        ih (l + 1 - c) (body.drop c) (by omega)
          (by simp only [List.length_drop]; omega),
        List.drop_drop, Nat.add_sub_cancel' hcle]

theorem skipChunks_exact (body : List Nat) (left : Nat) (h : left ≤ body.length) :
    skipChunks body left = .ok (body.drop left) :=
  skipChunksAux_exact left left body le_rfl h

/-- Full characterisation of `firstMetaBlock` on a stream that carries at
least `metaInt` audio bytes followed by a length byte. -/
theorem firstMetaBlock_eq (audio : List Nat) (lb : Nat) (rest : List Nat) (mi : Int)
    (hpos : 0 < mi) (hlen : (audio.length : Int) = mi) :
    firstMetaBlock (audio ++ lb :: rest) mi =
      if lb = 0 then ("", some .eof)
      else if rest.length < lb * 16 then
        ("", some (if rest.length = 0 then ReadErr.eof else ReadErr.unexpectedEOF))
      else
        let text := extractStreamTitle (bytesToString (rest.take (lb * 16)))
        if text = "" then ("", some .eof) else (text, none) := by
  have htn : mi.toNat = audio.length := by omega
  have hle : audio.length ≤ (audio ++ lb :: rest).length := by
    simp [List.length_append]
  unfold firstMetaBlock
  rw [if_neg (by omega), htn, skipChunks_exact _ _ hle, List.drop_left]

/-! ### Concrete fixtures used by the witnesses -/

/-- A 16-byte metadata block carrying the title `x`. -/
def mb : List Nat := "StreamTitle='x';".data.map Char.toNat

/-- A successful ICY response: `icy-metaint: 2`, a station name, and a body
holding two audio bytes, the metadata frame `mb`, and a little more audio. -/
def respICY : HTTPResp :=
  { status := 200,
    headers := [("icy-metaint", "2"), ("icy-name", "My Station")],
    body := [9, 9] ++ 1 :: mb ++ [9, 9, 0],
    bodyJson := none }

/-- A network with exactly one ICY-capable URL. -/
def env1 : Env := fun url => if url = "http://h/s" then some respICY else none

/-- An Icecast status document with one titled source. -/
def statusBody : Json :=
  .obj [("icestats",
    .obj [("source",
      .obj [("title", .str "Foo - Bar"), ("server_name", .str "Station")])])]

/-- A network with exactly one live status endpoint. -/
def env2 : Env := fun url =>
  if url = "http://h/status-json.xsl" then
    some { status := 200, headers := [], body := [], bodyJson := some statusBody }
  else none

/-- A network where the stream has no ICY support, no sibling answers, and
the status endpoint works. -/
def env3 : Env := fun url =>
  if url = "http://h/stream" then
    some { status := 200, headers := [], body := [], bodyJson := none }
  else if url = "http://h/status-json.xsl" then
    some { status := 200, headers := [], body := [], bodyJson := some statusBody }
  else none

/-- A network where the stream has no ICY support but the `/radio-128`
sibling mount answers with ICY metadata. -/
def env4 : Env := fun url =>
  if url = "http://h/radio-320k" then
    some { status := 200, headers := [], body := [], bodyJson := none }
  else if url = "http://h/radio-128" then some respICY
  else none

/-! ### Claim theorems -/

/-- C9: `firstMetaBlock`, given a reader and a positive `metaInterval`, skips
exactly `metaInterval` bytes of audio payload (the result depends only on
what follows the skipped `audio` prefix), reads one length byte `L`, and when
`L = 0` returns the EOF-equivalent "no metadata present" signal (`io.EOF`
itself) rather than a distinct error; otherwise it reads exactly `L*16`
metadata bytes and its string result is `extractStreamTitle` applied to
them. -/
theorem firstMetaBlock_frame_spec (audio : List Nat) (lb : Nat) (rest : List Nat)
    (mi : Int) (hpos : 0 < mi) (hlen : (audio.length : Int) = mi) :
    (lb = 0 → firstMetaBlock (audio ++ lb :: rest) mi = ("", some .eof)) ∧
    (lb ≠ 0 → lb * 16 ≤ rest.length →
      (firstMetaBlock (audio ++ lb :: rest) mi).1 =
        extractStreamTitle (bytesToString (rest.take (lb * 16)))) := by
  rw [firstMetaBlock_eq audio lb rest mi hpos hlen]
  constructor
  · intro h0
    rw [if_pos h0]
  · intro h0 hlen2
    rw [if_neg h0, if_neg (by omega)]
    dsimp only
    split <;> simp_all

theorem firstMetaBlock_frame_spec_witness :
    (firstMetaBlock ([9, 9] ++ 0 :: []) 2 = ("", some .eof)) ∧
    (firstMetaBlock ([9, 9] ++ 1 :: ("StreamTitle='x';".data.map Char.toNat)) 2).1 =
      extractStreamTitle (bytesToString (("StreamTitle='x';".data.map Char.toNat).take 16)) :=
  ⟨(firstMetaBlock_frame_spec [9, 9] 0 [] 2 (by decide) (by decide)).1 rfl,
   (firstMetaBlock_frame_spec [9, 9] 1 ("StreamTitle='x';".data.map Char.toNat) 2
      (by decide) (by decide)).2 (by decide) (by decide)⟩

/-- C10: `firstMetaBlock` never returns an empty title together with a nil
error: an empty `extractStreamTitle` result is converted into the EOF signal,
every non-error result carries a non-empty title, and consequently a sibling
probe only succeeds with a non-empty title. -/
theorem firstMetaBlock_no_empty_success :
    (∀ (body : List Nat) (mi : Int),
      (firstMetaBlock body mi).2 = none → (firstMetaBlock body mi).1 ≠ "") ∧
    (∀ (audio : List Nat) (lb : Nat) (rest : List Nat) (mi : Int),
      0 < mi → (audio.length : Int) = mi → lb ≠ 0 → lb * 16 ≤ rest.length →
      extractStreamTitle (bytesToString (rest.take (lb * 16))) = "" →
      firstMetaBlock (audio ++ lb :: rest) mi = ("", some .eof)) ∧
    (∀ (env : Env) (cand t st : String),
      probeCandidate env cand = some (t, st) → t ≠ "") := by
  refine ⟨?_, ?_, ?_⟩
  · intro body mi
    unfold firstMetaBlock
    split
    · simp
    · split
      · simp
      · split
        · simp
        · split
          · simp
          · rename_i x0 r0 lb rest2 heq hlb
            by_cases hlt : rest2.length < lb * 16
            · simp [hlt]
            · rw [if_neg hlt]
              dsimp only
              split
              · simp
              · rename_i htext
                intro _
                exact htext
  · intro audio lb rest mi hpos hlen h0 hlen2 hext
    rw [firstMetaBlock_eq audio lb rest mi hpos hlen, if_neg h0, if_neg (by omega)]
    simp [hext]
  · intro env cand t st h
    unfold probeCandidate at h
    cases henv : env cand with
    | none => rw [henv] at h; simp at h
    | some resp =>
      rw [henv] at h
      dsimp only at h
      split at h
      · simp at h
      · split at h
        · simp at h
        · split at h
          · simp at h
          · split at h
            · simp at h
            · split at h
              · simp at h
              · rename_i htrim
                simp only [Option.some.injEq, Prod.mk.injEq] at h
                rw [← h.1]
                unfold fixMojibake
                exact unescapeString_ne_empty htrim

theorem firstMetaBlock_no_empty_success_witness :
    (firstMetaBlock ([9, 9] ++ 1 :: ("StreamUrl='x';".data.map Char.toNat ++ [32, 32]))
        2 = ("", some .eof)) ∧
    "x" ≠ "" :=
  ⟨firstMetaBlock_no_empty_success.2.1 [9, 9] 1
      ("StreamUrl='x';".data.map Char.toNat ++ [32, 32]) 2
      (by decide) (by decide) (by decide) (by decide) (by decide),
   firstMetaBlock_no_empty_success.2.2
      (fun url => if url = "http://h/s" then some respICY else none)
      "http://h/s" "x" "My Station" (by decide)⟩

/-- C3: the Title Stabilizer (a) ignores a title equal to the current
display; (b) records a title differing from display and pending as the new
pending value with a fresh timestamp and arms a one-shot check for
`stableWindow` later, and that check promotes its captured value exactly when
it is still pending and still differs from the display; (c) promotes
immediately a title equal to the pending value once the window has elapsed
since the pending value was first seen; and the window is 6 seconds. -/
theorem stabilizer_rules (s : StabState) (raw : String) (now : Nat) :
    (normTitle raw = s.currentTitle → handleICYTitle s raw now = (s, none, none)) ∧
    (normTitle raw ≠ "" → normTitle raw ≠ s.currentTitle → normTitle raw ≠ s.pendingTitle →
      handleICYTitle s raw now =
        ({ s with pendingTitle := normTitle raw, firstSeenPending := now }, none,
          some (normTitle raw, now + stableWindow))) ∧
    (∀ (s' : StabState) (c : String),
      fireCheck s' c =
        if s'.pendingTitle = c ∧ s'.currentTitle ≠ c
        then ({ s' with currentTitle := c }, some c) else (s', none)) ∧
    (normTitle raw ≠ "" → normTitle raw = s.pendingTitle → normTitle raw ≠ s.currentTitle →
      stableWindow ≤ now - s.firstSeenPending →
      handleICYTitle s raw now =
        ({ s with currentTitle := s.pendingTitle }, some s.pendingTitle, none)) ∧
    stableWindow = 6 := by
  refine ⟨?_, ?_, ?_, ?_, rfl⟩
  · intro h
    simp only [handleICYTitle]
    rw [h]
    by_cases hc : s.currentTitle = "" <;> simp [hc]
  · intro h1 h2 h3
    simp only [handleICYTitle]
    rw [if_neg h1, if_neg h2, if_pos h3]
  · intro s' c
    simp only [fireCheck, remainingDur]
    by_cases h1 : s'.pendingTitle = c <;> by_cases h2 : s'.currentTitle = c <;>
      simp [h1, h2]
  · intro h1 h2 h3 h4
    simp only [handleICYTitle, remainingDur]
    rw [if_neg h1, if_neg h3, if_neg (fun hne => hne h2), if_neg (by omega)]

theorem stabilizer_rules_witness :
    (handleICYTitle ⟨"Old", "Old", 0⟩ "Old" 50 = (⟨"Old", "Old", 0⟩, none, none)) ∧
    (handleICYTitle ⟨"Old", "Old", 0⟩ "New" 50 =
      (⟨"Old", "New", 50⟩, none, some ("New", 56))) ∧
    (fireCheck ⟨"Old", "New", 50⟩ "New" = (⟨"New", "New", 50⟩, some "New")) ∧
    (handleICYTitle ⟨"Old", "New", 50⟩ "New" 56 =
      (⟨"New", "New", 50⟩, some "New", none)) := by
  have h1 := (stabilizer_rules ⟨"Old", "Old", 0⟩ "Old" 50).1 (by decide)
  have h2 := (stabilizer_rules ⟨"Old", "Old", 0⟩ "New" 50).2.1 (by decide) (by decide) (by decide)
  have h3 := (stabilizer_rules ⟨"Old", "Old", 0⟩ "Old" 50).2.2.1 ⟨"Old", "New", 50⟩ "New"
  have h4 := (stabilizer_rules ⟨"Old", "New", 50⟩ "New" 56).2.2.2.1
    (by decide) (by decide) (by decide) (by decide)
  refine ⟨h1, h2, ?_, h4⟩
  rw [h3]
  simp

/-- C4: a title that is contradicted within the stabilization window is never
flashed to the display: after a new title `r1` is recorded (arming a delayed
check for `stableWindow` later) and a different title `r2` replaces it as
pending, the armed check for `r1` finds the live pending value changed and
becomes a no-op, so the whole sequence emits nothing. -/
theorem stabilizer_no_flash (s : StabState) (r1 r2 : String) (n1 n2 : Nat)
    (h1 : normTitle r1 ≠ "") (h2 : normTitle r1 ≠ s.currentTitle)
    (h3 : normTitle r1 ≠ s.pendingTitle) (h4 : normTitle r2 ≠ "")
    (h5 : normTitle r2 ≠ s.currentTitle) (h6 : normTitle r2 ≠ normTitle r1) :
    (handleICYTitle s r1 n1).2.2 = some (normTitle r1, n1 + stableWindow) ∧
    stabRun s [.icy r1 n1, .icy r2 n2, .fire (normTitle r1)] =
      ({ s with pendingTitle := normTitle r2, firstSeenPending := n2 }, []) := by
  have e1 : handleICYTitle s r1 n1 =
      ({ s with pendingTitle := normTitle r1, firstSeenPending := n1 }, none,
        some (normTitle r1, n1 + stableWindow)) := by
    simp only [handleICYTitle]
    rw [if_neg h1, if_neg h2, if_pos h3]
  have e2 : handleICYTitle { s with pendingTitle := normTitle r1, firstSeenPending := n1 } r2 n2 =
      ({ s with pendingTitle := normTitle r2, firstSeenPending := n2 }, none,
        some (normTitle r2, n2 + stableWindow)) := by
    simp only [handleICYTitle]
    rw [if_neg h4, if_neg h5, if_pos h6]
  have e3 : fireCheck { s with pendingTitle := normTitle r2, firstSeenPending := n2 }
      (normTitle r1) =
      ({ s with pendingTitle := normTitle r2, firstSeenPending := n2 }, none) := by
    simp only [fireCheck]
    rw [if_pos (Or.inl h6)]
  constructor
  · rw [e1]
  · simp [stabRun, stabStep, e1, e2, e3]

theorem stabilizer_no_flash_witness :
    ((handleICYTitle ⟨"", "", 0⟩ "A" 1).2.2 = some ("A", 7)) ∧
    stabRun ⟨"", "", 0⟩ [.icy "A" 1, .icy "B" 3, .fire "A"] = (⟨"", "B", 3⟩, []) :=
  stabilizer_no_flash ⟨"", "", 0⟩ "A" "B" 1 3 (by decide) (by decide) (by decide)
    (by decide) (by decide) (by decide)

/-- C5 counterexample: candidate generation does not behave as claimed on
every non-empty path.  The path `/` is non-empty yet yields no candidates
(not 13); for `/ab-ab` the first candidate replaces the *first* occurrence of
the token `ab`, not the trailing one (the claim would give `/ab-320`); and
for `/a/b` (no separator) the whole slash-trimmed path `a/b` is replaced, not
the last path segment (the claim would give `/a/320`). -/
theorem sibling_candidates_counterexample :
    buildSiblingCandidates "/" = [] ∧
    ((buildSiblingCandidates "/ab-ab").head? = some "/320-ab" ∧ "/320-ab" ≠ "/ab-320") ∧
    ((buildSiblingCandidates "/a/b").head? = some "/320" ∧ "/320" ≠ "/a/320") := by
  decide

/-- Helper for the amended C5: the probing loop returns the first candidate
whose probe succeeds, in list order. -/
theorem probeSeq_first_success (env : Env) (u : Url) :
    ∀ (cands : List String) (i : Nat) (ts : String × String),
      (∀ j, j < i →
        probeCandidate env (urlString ⟨u.scheme, u.host, cands.getD j ""⟩) = none) →
      i < cands.length →
      probeCandidate env (urlString ⟨u.scheme, u.host, cands.getD i ""⟩) = some ts →
      (probeSeq env u cands).1 =
        .ok (urlString ⟨u.scheme, u.host, cands.getD i ""⟩, ⟨ts.1, "", ts.2⟩) := by
  intro cands
  induction cands with
  | nil => intro i ts _ hi; simp at hi
  | cons c rest ih =>
    intro i ts hfail hi hsucc
    cases i with
    | zero =>
      simp only [List.getD_cons_zero] at hsucc ⊢
      simp only [probeSeq, hsucc]
    | succ i' =>
      have h0 : probeCandidate env (urlString ⟨u.scheme, u.host, c⟩) = none := by
        simpa using hfail 0 (Nat.succ_pos i')
      simp only [List.getD_cons_succ] at hsucc ⊢
      simp only [probeSeq, h0]
      exact ih i' ts (fun j hj => by simpa using hfail (j + 1) (by omega))
        (by simpa using hi) hsucc

/-- C5 amended: for every stream URL whose path yields a non-empty detected
token (the text after the last `-`, `_` or `.` when that separator is not the
path's final character, otherwise the whole path trimmed of `/`), candidate
generation produces exactly 13 candidate paths obtained by replacing the
token's first occurrence in the path with, in this order:
320, 320k, 256, 256k, 192, 192k, 128, 128k, stream, live, aac, aacp, mp3;
and the candidates are probed sequentially in that order, the first success
winning. -/
theorem sibling_candidates_spec (u : Url)
    (hp : isPrefixCL ['/'] u.path.data = true)
    (hne : detectSiblingSuffix u.path ≠ "") :
    (buildSiblingCandidates u.path).length = 13 ∧
    buildSiblingCandidates u.path =
      siblingPriorities.map
        (fun label => ⟨replaceFirst u.path.data (detectSiblingSuffix u.path).data label.data⟩) ∧
    siblingPriorities = ["320", "320k", "256", "256k", "192", "192k", "128", "128k",
      "stream", "live", "aac", "aacp", "mp3"] ∧
    (∀ (env : Env) (i : Nat) (ts : String × String),
      (∀ j, j < i → probeCandidate env
          (urlString ⟨u.scheme, u.host, (buildSiblingCandidates u.path).getD j ""⟩) = none) →
      i < (buildSiblingCandidates u.path).length →
      probeCandidate env
          (urlString ⟨u.scheme, u.host, (buildSiblingCandidates u.path).getD i ""⟩) = some ts →
      (scanCandidates env u).1 =
        .ok (urlString ⟨u.scheme, u.host, (buildSiblingCandidates u.path).getD i ""⟩,
          ⟨ts.1, "", ts.2⟩)) := by
  have hpne : u.path ≠ "" := by
    rw [string_ne_empty_iff]
    intro hnil
    rw [hnil] at hp
    simp [isPrefixCL] at hp
  have hbuild : buildSiblingCandidates u.path =
      siblingPriorities.map
        (fun label => ⟨replaceFirst u.path.data (detectSiblingSuffix u.path).data label.data⟩) := by
    simp only [buildSiblingCandidates]
    rw [if_neg hpne, if_pos hp, if_neg hne]
  have hlen : (buildSiblingCandidates u.path).length = 13 := by
    rw [hbuild, List.length_map]
    rfl
  refine ⟨hlen, hbuild, rfl, ?_⟩
  intro env i ts hfail hi hsucc
  have hcne : buildSiblingCandidates u.path ≠ [] := by
    intro hnil
    rw [hnil] at hlen
    simp at hlen
  simp only [scanCandidates]
  rw [if_neg hcne]
  exact probeSeq_first_success env u _ i ts hfail hi hsucc

theorem sibling_candidates_spec_witness :
    (buildSiblingCandidates "/radio-320k").length = 13 ∧
    (scanCandidates env4 ⟨"http", "h", "/radio-320k"⟩).1 =
      .ok ("http://h/radio-128", ⟨"x", "", "My Station"⟩) := by
  have h := sibling_candidates_spec ⟨"http", "h", "/radio-320k"⟩ (by decide) (by decide)
  refine ⟨h.1, ?_⟩
  have h4 := h.2.2.2 env4 6 ("x", "My Station")
    (fun j hj => by interval_cases j <;> decide)
    (by rw [h.1]; omega) (by decide)
  simpa using h4

theorem urlString_ne_empty (v : Url) : urlString v ≠ "" := by
  intro h
  have h2 := congrArg String.length h
  simp only [urlString, String.length_append] at h2
  have h3 : ("://" : String).length = 3 := rfl
  rw [h3] at h2
  have h4 : ("" : String).length = 0 := rfl
  rw [h4] at h2
  omega

theorem stationCacheKey_ne_empty (u : Url) : stationCacheKey u ≠ "" := by
  intro h
  have h2 := congrArg String.length h
  simp only [stationCacheKey, String.length_append] at h2
  have h3 : ("|" : String).length = 1 := rfl
  rw [h3] at h2
  have h4 : ("" : String).length = 0 := rfl
  rw [h4] at h2
  omega

theorem probeSeq_ok_ne_empty (env : Env) (u : Url) :
    ∀ (cands : List String) (t : String) (i : Info),
      (probeSeq env u cands).1 = .ok (t, i) → t ≠ "" := by
  intro cands
  induction cands with
  | nil => intro t i h; simp [probeSeq] at h
  | cons c rest ih =>
    intro t i h
    simp only [probeSeq] at h
    cases hpc : probeCandidate env (urlString ⟨u.scheme, u.host, c⟩) with
    | some ts =>
      rw [hpc] at h
      simp only [Except.ok.injEq, Prod.mk.injEq] at h
      rw [← h.1]
      exact urlString_ne_empty _
    | none =>
      rw [hpc] at h
      exact ih t i h

theorem scanCandidates_ok_ne_empty (env : Env) (u : Url) (t : String) (i : Info)
    (h : (scanCandidates env u).1 = .ok (t, i)) : t ≠ "" := by
  simp only [scanCandidates] at h
  split at h
  · simp at h
  · exact probeSeq_ok_ne_empty env u _ t i h

theorem cacheLookup_store (c : Cache) (k v : String) :
    cacheLookup (cacheStore c k v) k = some v := by
  simp [cacheLookup, cacheStore, List.find?]

/-- C6: the sibling cache is positive-only and `Discover` is atomic with
respect to it: a failed discovery leaves the cache unchanged; a successful
one leaves the winning sibling URL stored under the host+basename key; and a
second call for any URL with the same cache key returns the cached sibling
immediately, with an empty `Info` and no network probes. -/
theorem sibling_cache_spec (env : Env) (cache : Cache) (u : Url) :
    (∀ e, (discover env cache u).1 = .error e → (discover env cache u).2.1 = cache) ∧
    (∀ target info, (discover env cache u).1 = .ok (target, info) →
      cacheLookup (discover env cache u).2.1 (stationCacheKey u) = some target) ∧
    (∀ target info, (discover env cache u).1 = .ok (target, info) →
      ∀ u2 : Url, stationCacheKey u2 = stationCacheKey u →
        discover env (discover env cache u).2.1 u2 =
          (.ok (target, ⟨"", "", ""⟩), (discover env cache u).2.1, [])) := by
  have hkey := stationCacheKey_ne_empty u
  by_cases hhit : ∃ target, cacheLookup cache (stationCacheKey u) = some target ∧ target ≠ ""
  · obtain ⟨target, hlk, htne⟩ := hhit
    have hd : discover env cache u = (.ok (target, ⟨"", "", ""⟩), cache, []) := by
      simp only [discover]
      rw [if_pos hkey, hlk]
      simp [htne]
    refine ⟨?_, ?_, ?_⟩
    · intro e he
      rw [hd] at he
      simp at he
    · intro t inf h
      rw [hd] at h ⊢
      simp only [Except.ok.injEq, Prod.mk.injEq] at h
      rw [← h.1]
      exact hlk
    · intro t inf h u2 hk2
      rw [hd] at h ⊢
      simp only [Except.ok.injEq, Prod.mk.injEq] at h
      simp only [discover]
      rw [hk2, if_pos hkey, hlk]
      have htne2 : t ≠ "" := h.1 ▸ htne
      simp [htne2, h.1]
  · push_neg at hhit
    have hnone : (if stationCacheKey u ≠ "" then
        (match cacheLookup cache (stationCacheKey u) with
          | some target => if target ≠ "" then some target else none
          | none => none)
        else none) = (none : Option String) := by
      rw [if_pos hkey]
      cases hlk : cacheLookup cache (stationCacheKey u) with
      | none => rfl
      | some target =>
        have := hhit target hlk
        simp [this]
    rcases hscan : scanCandidates env u with ⟨r, probes⟩
    cases r with
    | error e0 =>
      have hd : discover env cache u = (.error e0, cache, probes) := by
        simp only [discover]
        rw [hnone, hscan]
      refine ⟨?_, ?_, ?_⟩
      · intro e he
        rw [hd]
      · intro t inf h
        rw [hd] at h
        simp at h
      · intro t inf h
        rw [hd] at h
        simp at h
    | ok ti =>
      have hd : discover env cache u =
          (.ok ti, cacheStore cache (stationCacheKey u) ti.1, probes) := by
        simp only [discover]
        rw [hnone, hscan]
        simp [hkey]
      have htine : ti.1 ≠ "" := by
        apply scanCandidates_ok_ne_empty env u ti.1 ti.2
        rw [hscan]
      refine ⟨?_, ?_, ?_⟩
      · intro e he
        rw [hd] at he
        simp at he
      · intro t inf h
        rw [hd] at h ⊢
        simp only [Except.ok.injEq] at h
        dsimp only
        rw [show ti.1 = t from by rw [h]]
        exact cacheLookup_store cache (stationCacheKey u) t
      · intro t inf h u2 hk2
        rw [hd] at h ⊢
        simp only [Except.ok.injEq] at h
        simp only [discover]
        have ht : ti.1 = t := by rw [h]
        rw [hk2, if_pos hkey, cacheLookup_store]
        have ht2 : t ≠ "" := ht ▸ htine
        rw [ht]
        simp [ht2]

theorem sibling_cache_spec_witness :
    cacheLookup (discover env4 [] ⟨"http", "h", "/radio-320k"⟩).2.1
        (stationCacheKey ⟨"http", "h", "/radio-320k"⟩) = some "http://h/radio-128" ∧
    discover env4 (discover env4 [] ⟨"http", "h", "/radio-320k"⟩).2.1 ⟨"http", "h", "/radio-320k"⟩ =
      (.ok ("http://h/radio-128", ⟨"", "", ""⟩),
        (discover env4 [] ⟨"http", "h", "/radio-320k"⟩).2.1, []) :=
  ⟨(sibling_cache_spec env4 [] ⟨"http", "h", "/radio-320k"⟩).2.1 "http://h/radio-128"
      ⟨"x", "", "My Station"⟩ (by decide),
   (sibling_cache_spec env4 [] ⟨"http", "h", "/radio-320k"⟩).2.2 "http://h/radio-128"
      ⟨"x", "", "My Station"⟩ (by decide) ⟨"http", "h", "/radio-320k"⟩ rfl⟩

/-- Closed form of the status ticker loop: one entry per successful poll, in
tick order, failed polls contributing nothing (and never ending the loop). -/
theorem statusLoop_closed (envs : Nat → Env) (api : String) :
    ∀ (n k : Nat),
      statusLoop envs api n k =
        (List.range n).filterMap
          (fun j => (pollOnce (envs (k + j)) api).map
            (fun ts => (⟨ts.1, "", ts.2⟩ : Info))) := by
  intro n
  induction n with
  | zero => intro k; simp [statusLoop]
  | succ m ih =>
    intro k
    have harith : ∀ j : Nat, k + (j + 1) = k + 1 + j := fun j => by omega
    rw [List.range_succ_eq_map, List.filterMap_cons, List.filterMap_map]
    simp only [statusLoop, Nat.add_zero, Function.comp_def]
    cases hp : pollOnce (envs k) api with
    | none =>
      show statusLoop envs api m (k + 1) =
        (List.range m).filterMap
          (fun j => (pollOnce (envs (k + (j + 1))) api).map
            (fun ts => (⟨ts.1, "", ts.2⟩ : Info)))
      rw [ih (k + 1)]
      congr 1
      funext j
      rw [show k + 1 + j = k + (j + 1) from by omega]
    | some ts =>
      show (⟨ts.1, "", ts.2⟩ : Info) :: statusLoop envs api m (k + 1) =
        (⟨ts.1, "", ts.2⟩ : Info) ::
          (List.range m).filterMap
            (fun j => (pollOnce (envs (k + (j + 1))) api).map
              (fun ts => (⟨ts.1, "", ts.2⟩ : Info)))
      rw [ih (k + 1)]
      congr 2
      funext j
      rw [show k + 1 + j = k + (j + 1) from by omega]

/-- An always-dead network (every request is a transport error). -/
def envDead : Env := fun _ => none

/-- A per-tick network in which the poll at tick 1 hits a transport failure
but every other poll reaches the working status endpoint `env2`. -/
def envsFlaky : Nat → Env := fun k => if k = 1 then envDead else env2

/-- C7: the Status strategy's `Watch` returns an error immediately when the
first poll fails, invoking neither `onReady` nor `onUpdate`; after a
successful first poll it invokes `onReady` exactly once (with the resolved
API URL), emits the first `Info`, then polls every `statusPollSeconds = 10`
seconds until cancellation, emitting one `Info` per successful poll and
silently skipping failed polls without ending the loop. -/
theorem status_watch_spec (envs : Nat → Env) (n : Nat) (u : Url) (apiURL : String) :
    (pollOnce (envs 0) (if trimSpaceS apiURL = "" then buildStatusURL u else apiURL) = none →
      statusWatch envs n u apiURL = (.noStatus, [], [])) ∧
    (∀ ts, pollOnce (envs 0) (if trimSpaceS apiURL = "" then buildStatusURL u else apiURL) =
        some ts →
      statusWatch envs n u apiURL =
        (.canceled, [if trimSpaceS apiURL = "" then buildStatusURL u else apiURL],
          (⟨ts.1, "", ts.2⟩ : Info) ::
            (List.range n).filterMap
              (fun j => (pollOnce (envs (1 + j))
                  (if trimSpaceS apiURL = "" then buildStatusURL u else apiURL)).map
                (fun p => (⟨p.1, "", p.2⟩ : Info))))) ∧
    statusPollSeconds = 10 := by
  refine ⟨?_, ?_, rfl⟩
  · intro hfail
    simp only [statusWatch, hfail]
  · intro ts hok
    simp only [statusWatch, hok]
    rw [statusLoop_closed]

theorem status_watch_spec_witness :
    statusWatch envsFlaky 2 ⟨"http", "h", "/stream"⟩ "" =
      (.canceled, ["http://h/status-json.xsl"],
        [⟨"Foo - Bar", "", "Station"⟩, ⟨"Foo - Bar", "", "Station"⟩]) := by
  have h := (status_watch_spec envsFlaky 2 ⟨"http", "h", "/stream"⟩ "").2.1
    ("Foo - Bar", "Station") (by decide)
  rw [h]
  decide

theorem isPrefixCL_append : ∀ (l r : List Char), isPrefixCL l (l ++ r) = true := by
  intro l r
  induction l with
  | nil => rfl
  | cons a as ih => simp [isPrefixCL, ih]

theorem findSubstr_of_prefix (pat s : List Char) (hne : pat ≠ [])
    (hpre : isPrefixCL pat s = true) : findSubstr pat s = some 0 := by
  cases s with
  | nil =>
    cases pat with
    | nil => exact absurd rfl hne
    | cons a as => simp [isPrefixCL] at hpre
  | cons c rest => simp [findSubstr, hpre]

theorem lastIdxOf_quote_wrap (q s : Char) (hqs : q ≠ s) :
    ∀ (w : List Char), lastIdxOf q (w ++ [q, s]) = some w.length := by
  intro w
  induction w with
  | nil =>
    show lastIdxOf q [q, s] = some 0
    simp [lastIdxOf, hqs.symm]
  | cons a w ih => simp [lastIdxOf, ih]

/-- C1 counterexample: a quoted `StreamTitle` value can itself embed the
`quote ; key=value` terminator pattern, and then extraction *is* truncated at
the first quote.  For the block `StreamTitle='A'; b=c';` (value
`A'; b=c`, which contains an internal unescaped apostrophe) the function
returns `A`, not the full text `A'; b=c`. -/
theorem extract_title_counterexample :
    extractStreamTitle "StreamTitle='A'; b=c';" = "A" ∧ ("A" : String) ≠ "A'; b=c" := by
  decide

/-- C1 amended: for every quoted `StreamTitle` value — in particular values
containing internal unescaped apostrophes — *provided no apostrophe inside
the value is followed (after spaces/tabs) by a `;` whose remainder contains
`=`* (i.e. the value does not embed the terminator pattern, which is the
condition `quoteEnd … = none`), extraction returns the full text, whitespace
trimmed and HTML-entity decoded, not truncated at any internal quote; and
the three concrete evaluations of the claim hold. -/
theorem extract_stream_title_spec (v : String)
    (hclean : quoteEnd '\'' (v.data ++ ['\'', ';']) = none) :
    extractStreamTitle ("StreamTitle='" ++ v ++ "';") = fixMojibake v ∧
    extractStreamTitle "StreamTitle='';" = "" ∧
    extractStreamTitle "StreamUrl='x'" = "" ∧
    extractStreamTitle "StreamTitle=' AC/DC &amp; Friends ';" = "AC/DC & Friends" := by
  refine ⟨?_, by decide, by decide, by decide⟩
  have hdata : ("StreamTitle='" ++ v ++ "';").data =
      ("StreamTitle=").data ++ ('\'' :: (v.data ++ ['\'', ';'])) := by
    have hk : ("StreamTitle='" : String).data = ("StreamTitle=" : String).data ++ ['\''] := rfl
    have hsc : ("';" : String).data = ['\'', ';'] := rfl
    simp [String.data_append, hk, hsc]
  have hmeta_ne : ("StreamTitle=").data ++ ('\'' :: (v.data ++ ['\'', ';'])) ≠ [] := by
    simp
  have hfind : findSubstr ("StreamTitle=".data)
      (("StreamTitle=").data ++ ('\'' :: (v.data ++ ['\'', ';']))) = some 0 :=
    findSubstr_of_prefix _ _ (by decide) (isPrefixCL_append _ _)
  have hdrop : (("StreamTitle=").data ++ ('\'' :: (v.data ++ ['\'', ';']))).drop 12 =
      '\'' :: (v.data ++ ['\'', ';']) := by
    rw [show (12 : Nat) = ("StreamTitle=").data.length from rfl, List.drop_left]
  have hq : isGoSpace '\'' = false := rfl
  have hsemi : isGoSpace ';' = false := rfl
  have htrim : trimSpaceL ('\'' :: (v.data ++ ['\'', ';'])) =
      '\'' :: (v.data ++ ['\'', ';']) := by
    unfold trimSpaceL
    rw [List.dropWhile_cons, hq]
    simp only [Bool.false_eq_true, if_false]
    rw [show ('\'' :: (v.data ++ ['\'', ';'])).reverse =
      ';' :: ('\'' :: (v.data.reverse ++ ['\''])) from by simp]
    rw [List.dropWhile_cons, hsemi]
    simp only [Bool.false_eq_true, if_false]
    simp
  have hlast := lastIdxOf_quote_wrap '\'' ';' (by decide) v.data
  have hcore : extractStreamTitleCore
      (("StreamTitle=").data ++ ('\'' :: (v.data ++ ['\'', ';']))) =
      unescapeHTMLL (trimSpaceL v.data) := by
    simp only [extractStreamTitleCore]
    rw [if_neg hmeta_ne, hfind]
    dsimp only
    rw [Nat.zero_add, hdrop, htrim]
    dsimp only
    rw [if_pos (show ('\'' = '\'' || '\'' = '"') = true from rfl)]
    rw [hclean]
    dsimp only
    rw [hlast]
    dsimp only
    rw [List.take_left]
  show (⟨extractStreamTitleCore ("StreamTitle='" ++ v ++ "';").data⟩ : String) = _
  rw [hdata, hcore]
  rfl

theorem extract_stream_title_spec_witness :
    extractStreamTitle "StreamTitle='JANE'S ADDICTION - BEEN CAUGHT STEALING';" =
      "JANE'S ADDICTION - BEEN CAUGHT STEALING" := by
  have h := (extract_stream_title_spec "JANE'S ADDICTION - BEEN CAUGHT STEALING"
    (by decide)).1
  rw [show ("StreamTitle='" ++ "JANE'S ADDICTION - BEEN CAUGHT STEALING" ++ "';" : String) =
    "StreamTitle='JANE'S ADDICTION - BEEN CAUGHT STEALING';" from by decide] at h
  rw [h]
  decide

/-- C2: in the Dispatcher's auto mode, Sibling discovery is attempted if and
only if Direct fails with the `errNoICY` sentinel; on any other Direct
outcome the chain stops at Direct alone; Status is attempted if and only if
Sibling discovery also fails; and `errNoICY` is returned exactly when the
final (non-redirect) response's `icy-metaint` header is missing or does not
parse to a positive integer, redirects being followed transparently. -/
theorem auto_chain_spec (env : Env) (fuel ticks : Nat) (cache : Cache) (u : Url) :
    (Attempt.sibling ∈ (autoWatch env fuel ticks cache u).attempts ↔
      (directWatch env fuel (urlString u)).1 = .noICY) ∧
    ((directWatch env fuel (urlString u)).1 ≠ .noICY →
      (autoWatch env fuel ticks cache u).attempts = [.direct]) ∧
    (Attempt.status ∈ (autoWatch env fuel ticks cache u).attempts ↔
      ((directWatch env fuel (urlString u)).1 = .noICY ∧
        ∃ e, (discover env cache u).1 = .error e)) ∧
    (∀ url resp, env url = some resp → ¬(300 ≤ resp.status ∧ resp.status < 400) →
      ((directWatch env (fuel + 1) url).1 = .noICY ↔ hasPositiveMetaInt resp = false)) ∧
    (∀ url resp, env url = some resp → 300 ≤ resp.status → resp.status < 400 →
      headerGet resp.headers "Location" ≠ "" →
      directWatch env (fuel + 1) url = directWatch env fuel (headerGet resp.headers "Location")) := by
  have hA : Attempt.sibling ∈ (autoWatch env fuel ticks cache u).attempts ↔
      (directWatch env fuel (urlString u)).1 = .noICY := by
    rcases hd : directWatch env fuel (urlString u) with ⟨res, ready, upds⟩
    by_cases hres : res = .noICY
    · subst hres
      rcases hdisc : discover env cache u with ⟨r, cache2, probes⟩
      cases r with
      | ok ti => simp [autoWatch, hd, hdisc]
      | error e0 => simp [autoWatch, hd, hdisc]
    · simp [autoWatch, hd, hres]
  have hB : (directWatch env fuel (urlString u)).1 ≠ .noICY →
      (autoWatch env fuel ticks cache u).attempts = [.direct] := by
    rcases hd : directWatch env fuel (urlString u) with ⟨res, ready, upds⟩
    intro hne
    have hres : res ≠ .noICY := by
      intro hx
      apply hne
      rw [hx]
    simp [autoWatch, hd, hres]
  have hC : Attempt.status ∈ (autoWatch env fuel ticks cache u).attempts ↔
      ((directWatch env fuel (urlString u)).1 = .noICY ∧
        ∃ e, (discover env cache u).1 = .error e) := by
    rcases hd : directWatch env fuel (urlString u) with ⟨res, ready, upds⟩
    by_cases hres : res = .noICY
    · subst hres
      rcases hdisc : discover env cache u with ⟨r, cache2, probes⟩
      cases r with
      | ok ti => simp [autoWatch, hd, hdisc]
      | error e0 => simp [autoWatch, hd, hdisc]
    · simp [autoWatch, hd, hres]
  refine ⟨hA, hB, hC, ?_, ?_⟩
  · intro url resp henv hnred
    simp only [directWatch]
    rw [henv]
    dsimp only
    rw [if_neg hnred]
    unfold hasPositiveMetaInt
    by_cases h1 : headerGet resp.headers "icy-metaint" = ""
    · rw [if_pos h1, h1]
      simp [atoi]
    · rw [if_neg h1]
      cases hat : atoi (headerGet resp.headers "icy-metaint") with
      | none => simp [hat]
      | some n =>
        dsimp only
        by_cases hn : n ≤ 0
        · rw [if_pos hn]
          simp
          omega
        · rw [if_neg hn]
          simp
          omega
  · intro url resp henv h3a h3b hloc
    simp only [directWatch]
    rw [henv]
    dsimp only
    rw [if_pos ⟨h3a, h3b⟩, if_neg hloc]

theorem auto_chain_spec_witness :
    (autoWatch env1 5 1 [] ⟨"http", "h", "/s"⟩).attempts = [.direct] ∧
    ((directWatch env3 (4 + 1) "http://h/stream").1 = .noICY ↔
      hasPositiveMetaInt { status := 200, headers := [], body := [], bodyJson := none } =
        false) :=
  ⟨(auto_chain_spec env1 5 1 [] ⟨"http", "h", "/s"⟩).2.1 (by decide),
   (auto_chain_spec env3 4 1 [] ⟨"http", "h", "/stream"⟩).2.2.2.1 "http://h/stream"
      { status := 200, headers := [], body := [], bodyJson := none } rfl (by decide)⟩

/-- `directStrategy.Watch` calls `onReady` only after completing an ICY
handshake: if `onReady` ran, the result is `streamEnd` and some URL of the
redirect chain answered with a positive `icy-metaint`. -/
theorem directWatch_ready_spec (env : Env) :
    ∀ (fuel : Nat) (url : String), (directWatch env fuel url).2.1 = true →
      (directWatch env fuel url).1 = .streamEnd ∧
      ∃ url2 resp, env url2 = some resp ∧ hasPositiveMetaInt resp = true := by
  intro fuel
  induction fuel with
  | zero => intro url h; simp [directWatch] at h
  | succ n ih =>
    intro url h
    simp only [directWatch] at h ⊢
    cases henv : env url with
    | none => rw [henv] at h; simp at h
    | some resp =>
      rw [henv] at h
      dsimp only at h ⊢
      by_cases hred : 300 ≤ resp.status ∧ resp.status < 400
      · rw [if_pos hred] at h ⊢
        by_cases hloc : headerGet resp.headers "Location" = ""
        · rw [if_pos hloc] at h; simp at h
        · rw [if_neg hloc] at h ⊢
          exact ih _ h
      · rw [if_neg hred] at h ⊢
        by_cases h1 : headerGet resp.headers "icy-metaint" = ""
        · rw [if_pos h1] at h; simp at h
        · rw [if_neg h1] at h ⊢
          cases hat : atoi (headerGet resp.headers "icy-metaint") with
          | none =>
            rw [hat] at h
            simp at h
          | some m =>
            rw [hat] at h
            dsimp only at h ⊢
            by_cases hm : m ≤ 0
            · rw [if_pos hm] at h; simp at h
            · rw [if_neg hm]
              refine ⟨rfl, url, resp, henv, ?_⟩
              unfold hasPositiveMetaInt
              rw [hat]
              simp
              omega

/-- `statusJSONStrategy.Watch` calls `onReady` at most once, and only with an
API URL whose first poll succeeded. -/
theorem statusWatch_ready_spec (envs : Nat → Env) (ticks : Nat) (u : Url) (api : String) :
    (statusWatch envs ticks u api).2.1.length ≤ 1 ∧
    ∀ a ∈ (statusWatch envs ticks u api).2.1, ∃ ts, pollOnce (envs 0) a = some ts := by
  simp only [statusWatch]
  cases hp : pollOnce (envs 0) (if trimSpaceS api = "" then buildStatusURL u else api) with
  | none => simp
  | some ts =>
    refine ⟨by simp, ?_⟩
    intro a ha
    simp only [List.mem_singleton] at ha
    subst ha
    exact ⟨ts, hp⟩

/-- A successful candidate probe implies an ICY handshake on that URL. -/
theorem probeCandidate_handshake (env : Env) (cand : String) (ts : String × String)
    (h : probeCandidate env cand = some ts) :
    ∃ resp, env cand = some resp ∧ hasPositiveMetaInt resp = true := by
  unfold probeCandidate at h
  cases henv : env cand with
  | none => rw [henv] at h; simp at h
  | some resp =>
    rw [henv] at h
    dsimp only at h
    by_cases h1 : headerGet resp.headers "icy-metaint" = ""
    · rw [if_pos h1] at h; simp at h
    · rw [if_neg h1] at h
      cases hat : atoi (headerGet resp.headers "icy-metaint") with
      | none => rw [hat] at h; simp at h
      | some m =>
        rw [hat] at h
        dsimp only at h
        by_cases hm : m ≤ 0
        · rw [if_pos hm] at h; simp at h
        · refine ⟨resp, rfl, ?_⟩
          unfold hasPositiveMetaInt
          rw [hat]
          simp
          omega

theorem probeSeq_ok_handshake (env : Env) (u : Url) :
    ∀ (cands : List String) (t : String) (i : Info),
      (probeSeq env u cands).1 = .ok (t, i) →
      ∃ resp, env t = some resp ∧ hasPositiveMetaInt resp = true := by
  intro cands
  induction cands with
  | nil => intro t i h; simp [probeSeq] at h
  | cons c rest ih =>
    intro t i h
    simp only [probeSeq] at h
    cases hpc : probeCandidate env (urlString ⟨u.scheme, u.host, c⟩) with
    | some ts =>
      rw [hpc] at h
      simp only [Except.ok.injEq, Prod.mk.injEq] at h
      rw [← h.1]
      exact probeCandidate_handshake env _ ts hpc
    | none =>
      rw [hpc] at h
      exact ih t i h

theorem scanCandidates_ok_handshake (env : Env) (u : Url) (t : String) (i : Info)
    (h : (scanCandidates env u).1 = .ok (t, i)) :
    ∃ resp, env t = some resp ∧ hasPositiveMetaInt resp = true := by
  simp only [scanCandidates] at h
  split at h
  · simp at h
  · exact probeSeq_ok_handshake env u _ t i h

/-- The sibling-cache invariant backing the dispatcher's handshake guarantee:
every cached sibling URL answered an ICY handshake (it was stored only after
a successful probe). -/
def CacheValid (env : Env) (cache : Cache) : Prop :=
  ∀ kv ∈ cache, ∃ resp, env kv.2 = some resp ∧ hasPositiveMetaInt resp = true

/-- `Discover` only hands out handshaken sibling URLs and preserves the
cache invariant. -/
theorem discover_handshake (env : Env) (cache : Cache) (u : Url)
    (hvalid : CacheValid env cache) :
    (∀ t i, (discover env cache u).1 = .ok (t, i) →
      ∃ resp, env t = some resp ∧ hasPositiveMetaInt resp = true) ∧
    CacheValid env (discover env cache u).2.1 := by
  have hkey := stationCacheKey_ne_empty u
  by_cases hhit : ∃ target, cacheLookup cache (stationCacheKey u) = some target ∧ target ≠ ""
  · obtain ⟨target, hlk, htne⟩ := hhit
    have hd : discover env cache u = (.ok (target, ⟨"", "", ""⟩), cache, []) := by
      simp only [discover]
      rw [if_pos hkey, hlk]
      simp [htne]
    rw [hd]
    refine ⟨?_, hvalid⟩
    intro t i h
    simp only [Except.ok.injEq, Prod.mk.injEq] at h
    unfold cacheLookup at hlk
    obtain ⟨kv, hfind, hkv2⟩ := Option.map_eq_some'.mp hlk
    have hmem := List.mem_of_find?_eq_some hfind
    have hh := hvalid kv hmem
    rw [hkv2] at hh
    rw [← h.1]
    exact hh
  · push_neg at hhit
    have hnone : (if stationCacheKey u ≠ "" then
        (match cacheLookup cache (stationCacheKey u) with
          | some target => if target ≠ "" then some target else none
          | none => none)
        else none) = (none : Option String) := by
      rw [if_pos hkey]
      cases hlk : cacheLookup cache (stationCacheKey u) with
      | none => rfl
      | some target =>
        have := hhit target hlk
        simp [this]
    rcases hscan : scanCandidates env u with ⟨r, probes⟩
    cases r with
    | error e0 =>
      have hd : discover env cache u = (.error e0, cache, probes) := by
        simp only [discover]
        rw [hnone, hscan]
      rw [hd]
      exact ⟨fun t i h => by simp at h, hvalid⟩
    | ok ti =>
      have hd : discover env cache u =
          (.ok ti, cacheStore cache (stationCacheKey u) ti.1, probes) := by
        simp only [discover]
        rw [hnone, hscan]
        simp [hkey]
      have hhs : ∃ resp, env ti.1 = some resp ∧ hasPositiveMetaInt resp = true := by
        apply scanCandidates_ok_handshake env u ti.1 ti.2
        rw [hscan]
      rw [hd]
      constructor
      · intro t i h
        simp only [Except.ok.injEq] at h
        rw [show t = ti.1 from by rw [h]]
        exact hhs
      · intro kv hkv
        rcases List.mem_cons.mp hkv with hkv1 | hkv2
        · rw [hkv1]
          exact hhs
        · exact hvalid kv hkv2

/-- C8: for every watch session started via the Dispatcher — hint-driven or
auto — `onStrategy` is invoked at most once, and never without a successful
protocol handshake for the resolved strategy: for an `ICY` resolution some
response of the session carried a positive `icy-metaint` (for a cached
sibling this is the cache invariant `CacheValid`, which holds initially for
the empty cache and is preserved by every session); for a `JSON` resolution
the first status poll at the resolved URL succeeded. -/
theorem dispatch_strategy_spec (env : Env) (fuel ticks : Nat) (cache : Cache) (u : Url)
    (hint : StrategyHint) (hvalid : CacheValid env cache) :
    (dispatchWatch env fuel ticks cache u hint).strategies.length ≤ 1 ∧
    (∀ h ∈ (dispatchWatch env fuel ticks cache u hint).strategies,
      (h.type = MetadataTypeICY →
        ∃ url resp, env url = some resp ∧ hasPositiveMetaInt resp = true) ∧
      (h.type = MetadataTypeJSON → ∃ ts, pollOnce env h.URL = some ts)) ∧
    CacheValid env (dispatchWatch env fuel ticks cache u hint).cache := by
  simp only [dispatchWatch]
  rw [if_neg (urlString_ne_empty u)]
  by_cases hj : upperStr (trimSpaceS hint.type) = MetadataTypeJSON
  · rw [if_pos hj]
    dsimp only
    obtain ⟨hlen, hpolls⟩ := statusWatch_ready_spec (fun _ => env) ticks u hint.URL
    refine ⟨by simpa using hlen, ?_, hvalid⟩
    intro h hmem
    simp only [List.mem_map] at hmem
    obtain ⟨a, ha, rfl⟩ := hmem
    exact ⟨fun hx => absurd hx (show ¬(MetadataTypeJSON = MetadataTypeICY) by decide),
      fun _ => hpolls a ha⟩
  · rw [if_neg hj]
    by_cases hi : upperStr (trimSpaceS hint.type) = MetadataTypeICY
    · rw [if_pos hi]
      dsimp only
      cases hready :
          (directWatch env fuel (if hint.URL = "" then urlString u else hint.URL)).2.1 with
      | false =>
        refine ⟨by simp, ?_, hvalid⟩
        intro h hmem
        simp at hmem
      | true =>
        obtain ⟨_, url2, resp, henv, hpos⟩ :=
          directWatch_ready_spec env fuel
            (if hint.URL = "" then urlString u else hint.URL) hready
        refine ⟨by simp, ?_, hvalid⟩
        intro h hmem
        have hmem2 : h =
            ⟨MetadataTypeICY, if hint.URL = "" then urlString u else hint.URL⟩ := by
          simpa using hmem
        subst hmem2
        exact ⟨fun _ => ⟨url2, resp, henv, hpos⟩,
          fun hx => absurd hx (show ¬(MetadataTypeICY = MetadataTypeJSON) by decide)⟩
    · rw [if_neg hi]
      rcases hd : directWatch env fuel (urlString u) with ⟨res, ready, upds⟩
      by_cases hres : res = .noICY
      · subst hres
        have hready : ready = false := by
          cases hready2 : ready
          · rfl
          · exfalso
            have hsp := directWatch_ready_spec env fuel (urlString u)
              (by rw [hd]; exact hready2)
            rw [hd] at hsp
            simp at hsp
        subst hready
        obtain ⟨hdh, hdc⟩ := discover_handshake env cache u hvalid
        rcases hdisc : discover env cache u with ⟨r, cache2, probes⟩
        rw [hdisc] at hdh hdc
        cases r with
        | ok ti =>
          simp only [autoWatch, hd, hdisc]
          refine ⟨?_, ?_, hdc⟩
          · simp
          · intro h hmem
            have hmem2 : h = ⟨MetadataTypeICY, ti.1⟩ := by simpa using hmem
            subst hmem2
            exact ⟨fun _ => ⟨ti.1, hdh ti.1 ti.2 rfl⟩,
              fun hx => absurd hx (show ¬(MetadataTypeICY = MetadataTypeJSON) by decide)⟩
        | error e0 =>
          obtain ⟨hlen3, hpolls3⟩ := statusWatch_ready_spec (fun _ => env) ticks u ""
          simp only [autoWatch, hd, hdisc]
          refine ⟨?_, ?_, hdc⟩
          · simpa using hlen3
          · intro h hmem
            simp at hmem
            obtain ⟨a, ha, rfl⟩ := hmem
            exact ⟨fun hx => absurd hx (show ¬(MetadataTypeJSON = MetadataTypeICY) by decide),
              fun _ => hpolls3 a ha⟩
      · simp only [autoWatch, hd]
        have hif : ((res, ready, upds).1 ≠ DirectRes.noICY) := hres
        rw [if_pos hif]
        cases hready : ready with
        | false =>
          refine ⟨by simp, ?_, hvalid⟩
          intro h hmem
          simp at hmem
        | true =>
          obtain ⟨_, url2, resp, henv, hpos⟩ :=
            directWatch_ready_spec env fuel (urlString u) (by rw [hd]; exact hready)
          refine ⟨by simp, ?_, hvalid⟩
          intro h hmem
          have hmem2 : h = ⟨MetadataTypeICY, urlString u⟩ := by simpa using hmem
          subst hmem2
          exact ⟨fun _ => ⟨url2, resp, henv, hpos⟩,
            fun hx => absurd hx (show ¬(MetadataTypeICY = MetadataTypeJSON) by decide)⟩

theorem dispatch_strategy_spec_witness :
    (dispatchWatch env3 5 1 [] ⟨"http", "h", "/stream"⟩ ⟨"", ""⟩).strategies.length ≤ 1 ∧
    (∃ ts, pollOnce env3 "http://h/status-json.xsl" = some ts) := by
  have h := dispatch_strategy_spec env3 5 1 [] ⟨"http", "h", "/stream"⟩ ⟨"", ""⟩
    (fun kv hkv => absurd hkv (List.not_mem_nil kv))
  refine ⟨h.1, ?_⟩
  have hmem : (⟨"JSON", "http://h/status-json.xsl"⟩ : StrategyHint) ∈
      (dispatchWatch env3 5 1 [] ⟨"http", "h", "/stream"⟩ ⟨"", ""⟩).strategies := by decide
  exact (h.2.1 _ hmem).2 rfl

end MiniRadio

/-
Concrete evaluations of the embedding. The first block replays the
repository's own `TestExtractStreamTitle` table verbatim; the rest exercise
the sibling, status, dispatcher and stabilizer models on small networks.
-/
section evaluations
open MiniRadio
example : extractStreamTitle "StreamTitle='Artist - Track';" = "Artist - Track" := by decide
example : extractStreamTitle "StreamTitle='JANE'S ADDICTION - BEEN CAUGHT STEALING';" =
    "JANE'S ADDICTION - BEEN CAUGHT STEALING" := by decide
example : extractStreamTitle "StreamTitle=\"Double Quoted Title\";" = "Double Quoted Title" := by decide
example : extractStreamTitle "StreamTitle='No Terminator" = "No Terminator" := by decide
example : extractStreamTitle "StreamTitle=' AC/DC &amp; Friends ';" = "AC/DC & Friends" := by decide
example : extractStreamTitle "StreamTitle='';" = "" := by decide
example : extractStreamTitle "StreamUrl='http://example'" = "" := by decide
example : extractStreamTitle "StreamTitle='A'; b=c';" = "A" := by decide

-- sibling candidates
example : buildSiblingCandidates "/radio-320k" =
  ["/radio-320", "/radio-320k", "/radio-256", "/radio-256k", "/radio-192",
   "/radio-192k", "/radio-128", "/radio-128k", "/radio-stream", "/radio-live",
   "/radio-aac", "/radio-aacp", "/radio-mp3"] := by decide
example : buildSiblingCandidates "/" = [] := by decide
example : (buildSiblingCandidates "/ab-ab").head? = some "/320-ab" := by decide
example : (buildSiblingCandidates "/a/b").head? = some "/320" := by decide
example : detectSiblingSuffix "/stream.mp3" = "mp3" := by decide
example : stationCacheKey ⟨"http", "Host.com", "/Radio-320k.mp3"⟩ = "host.com|radio" := by decide
example : buildStatusURL ⟨"http", "h", "/live/rock"⟩ = "http://h/live/status-json.xsl" := by decide
example : buildStatusURL ⟨"http", "h", "/stream"⟩ = "http://h/status-json.xsl" := by decide

-- firstMetaBlock: 2 audio bytes, length byte 1, 16 metadata bytes "StreamTitle='x';" padded with 0
example : mb.length = 16 := by decide
example : firstMetaBlock ([9, 9] ++ 1 :: mb) 2 = ("x", none) := by decide
example : firstMetaBlock ([9, 9] ++ 0 :: mb) 2 = ("", some .eof) := by decide
example : (firstMetaBlock [9, 9, 9] 7).2 = some .unexpectedEOF := by decide
example : (firstMetaBlock [] 7).2 = some .eof := by decide

-- direct watch on a one-URL network
example : directWatch env1 5 "http://h/s" =
  (.streamEnd, true, [⟨"", "", "My Station"⟩, ⟨"x", "", "My Station"⟩]) := by decide
example : probeCandidate env1 "http://h/s" = some ("x", "My Station") := by decide

-- status watch
example : pollOnce env2 "http://h/status-json.xsl" = some ("Foo - Bar", "Station") := by decide
example : statusWatch (fun _ => env2) 2 ⟨"http", "h", "/stream"⟩ "" =
  (.canceled, ["http://h/status-json.xsl"],
   [⟨"Foo - Bar", "", "Station"⟩, ⟨"Foo - Bar", "", "Station"⟩, ⟨"Foo - Bar", "", "Station"⟩]) := by decide

-- auto chain: no ICY anywhere, no siblings, status works
example : (autoWatch env3 5 1 [] ⟨"http", "h", "/stream"⟩).attempts =
  [.direct, .sibling, .status] := by decide
example : (autoWatch env3 5 1 [] ⟨"http", "h", "/stream"⟩).strategies =
  [⟨"JSON", "http://h/status-json.xsl"⟩] := by decide

-- auto chain: sibling wins
example : (autoWatch env4 5 1 [] ⟨"http", "h", "/radio-320k"⟩).strategies =
  [⟨"ICY", "http://h/radio-128"⟩] := by decide
example : (discover env4 [] ⟨"http", "h", "/radio-320k"⟩).2.1 =
  [("h|radio", "http://h/radio-128")] := by decide
example : (discover env4 [("h|radio", "http://h/radio-128")] ⟨"http", "h", "/radio-320k"⟩) =
  (.ok ("http://h/radio-128", ⟨"", "", ""⟩), [("h|radio", "http://h/radio-128")], []) := by decide

-- stabilizer
example : handleICYTitle ⟨"", "", 0⟩ "A" 100 = (⟨"", "A", 100⟩, none, some ("A", 106)) := by decide
example : fireCheck ⟨"", "A", 100⟩ "A" = (⟨"A", "A", 100⟩, some "A") := by decide
example : fireCheck ⟨"", "B", 103⟩ "A" = (⟨"", "B", 103⟩, none) := by decide
example : handleICYTitle ⟨"", "A", 100⟩ "A" 103 = (⟨"", "A", 100⟩, none, none) := by decide
example : handleICYTitle ⟨"", "A", 100⟩ "A" 106 = (⟨"A", "A", 100⟩, some "A", none) := by decide
example : stabRun ⟨"", "", 0⟩ [.icy "A" 1, .icy "B" 3, .fire "A"] = (⟨"", "B", 3⟩, []) := by decide
end evaluations
